import Mathlib

/-!
A shallow embedding of the write-forwarding (subscription) subsystem in
`coordinator/subscriber.go`, together with theorems about its behaviour.

Go peculiarities kept by the model:
* a byte slice is `Option (List Nat)`: `none` is the `nil` slice, which the
  worker loop distinguishes from a non-nil empty slice;
* a buffered channel is `ChanState`: `isNil` (zero value, never made),
  `opened cap buf`, or `closed`; a `select` send with a `default` branch
  enqueues when the buffer has room, takes `default` when it is full or the
  channel is nil, and panics when the channel is closed (a Go send on a
  closed channel panics even inside `select`);
* panics are surfaced explicitly (`SendOutcome.panicked`, or `none` for the
  integer-divide-by-zero of the round-robin cursor update);
* external collaborators (`url.Parse`, `os.ReadFile`, the arrow-flight dial
  and `DoPut` handshake) are oracle functions collected in `Env`.
-/

namespace coordinator

/-- A parsed URL (`net/url`), reduced to the fields the subscriber code
reads: `Scheme`, `Host`, and the full string form `URL.String()`. -/
structure URL where
  scheme : String
  host : String
  str : String
deriving DecidableEq

/-- The TLS client configuration built by `NewHTTPSClient`:
`InsecureSkipVerify` plus the optional CA bundle loaded from disk. -/
structure TLSConfig where
  insecureSkipVerify : Bool
  rootCAs : Option (List Nat)
deriving DecidableEq

/-- `HTTPClient`: serves both the `http` scheme (`tls = none`) and the
`https` scheme (`tls = some _`), mirroring the single Go struct. -/
structure HTTPClient where
  url : URL
  timeout : Nat
  tls : Option TLSConfig
deriving DecidableEq

/-- `RPCClient`: the flight `DoPut` stream handle is `none` when dialing or
`DoPut` failed, since `NewRPCClient` discards both errors. -/
structure RPCClient where
  address : String
  client : Option Nat
deriving DecidableEq

/-- The `Client` interface: its two concrete implementations. -/
inductive Client where
  | http (c : HTTPClient)
  | rpc (c : RPCClient)
deriving DecidableEq

/-- `Client.Destination()`: the HTTP client returns `c.url.String()`, the
RPC client returns its address. -/
def Client.Destination : Client → String
  | .http c => c.url.str
  | .rpc c => c.address

/-- The external collaborators consumed during client construction, passed
as oracles: `url.Parse`, `os.ReadFile` (for the CA bundle), and the
arrow-flight dial + `DoPut` performed by `NewRPCClient`. -/
structure Env where
  parseURL : String → Except String URL
  readFile : String → Except String (List Nat)
  dialFlight : String → Except String Nat

/-- `NewHTTPClient(url, timeout)`: a plain client, no TLS configuration. -/
def NewHTTPClient (u : URL) (timeout : Nat) : HTTPClient :=
  ⟨u, timeout, none⟩

/-- `NewHTTPSClient`: builds the TLS configuration; when a certificate path
is configured, a failure to read it is returned as an error. -/
def NewHTTPSClient (env : Env) (u : URL) (timeout : Nat) (skipVerify : Bool)
    (certs : String) : Except String HTTPClient :=
  if certs = "" then
    .ok ⟨u, timeout, some ⟨skipVerify, none⟩⟩
  else
    match env.readFile certs with
    | .error e => .error e
    | .ok caCert => .ok ⟨u, timeout, some ⟨skipVerify, some caCert⟩⟩

/-- `NewRPCClient(address)`: the source assigns the errors of
`flight.NewFlightClient` and `client.DoPut` to `_` and always returns a
nil error, so a failed dial or authentication handshake still yields a
client (with a nil `DoPut` stream). -/
def NewRPCClient (env : Env) (address : String) : Except String RPCClient :=
  .ok ⟨address, (env.dialFlight address).toOption⟩

/-- The `config.Subscriber` fields the subscriber code reads. -/
structure SubscriberConfig where
  httpTimeout : Nat
  insecureSkipVerify : Bool
  httpsCertificate : String
  writeConcurrency : Nat
  writeBufferSize : Nat
deriving DecidableEq

/-- `WriteRequest`: a unit of forwarding work. `lineProtocol = none` models
the nil slice (column-protocol requests leave it nil); `record = none`
models a nil `array.Record` interface value. -/
structure WriteRequest where
  client : Nat
  lineProtocol : Option (List Nat)
  mst : String
  record : Option Nat
deriving DecidableEq

/-- The state of the writer's buffered channel `w.ch`. -/
inductive ChanState where
  | isNil
  | opened (cap : Nat) (buf : List WriteRequest)
  | closed
deriving DecidableEq

/-- `BaseWriter`: channel, ordered client list, and identifying strings. -/
structure BaseWriter where
  ch : ChanState
  clients : List Client
  db : String
  rp : String
  name : String
deriving DecidableEq

/-- `NewBaseWriter`: the channel field keeps its zero value (nil). -/
def NewBaseWriter (db rp name : String) (clients : List Client) : BaseWriter :=
  ⟨.isNil, clients, db, rp, name⟩

/-- The error log record emitted when the write buffer is full:
destination, db, rp. -/
structure DropLog where
  dest : String
  db : String
  rp : String
deriving DecidableEq

/-- What one `Send` call did: enqueued the request, dropped it with a log
record, or panicked. -/
inductive SendOutcome where
  | enqueued
  | dropped (log : DropLog)
  | panicked
deriving DecidableEq

/-- `BaseWriter.Send`: the non-blocking enqueue (`select` with `default`).
A Go send on a closed channel panics even inside `select`; on a nil
channel the send case is never ready, so `default` runs. The `default`
branch logs `w.clients[wr.Client].Destination()` — an out-of-range client
index would itself panic there. `Send` returns no error to its caller. -/
def BaseWriter.Send (w : BaseWriter) (wr : WriteRequest) : BaseWriter × SendOutcome :=
  match w.ch with
  | .opened cap buf =>
    if buf.length < cap then
      ({ w with ch := .opened cap (buf ++ [wr]) }, .enqueued)
    else
      match w.clients[wr.client]? with
      | some c => (w, .dropped ⟨c.Destination, w.db, w.rp⟩)
      | none => (w, .panicked)
  | .isNil =>
    match w.clients[wr.client]? with
    | some c => (w, .dropped ⟨c.Destination, w.db, w.rp⟩)
    | none => (w, .panicked)
  | .closed => (w, .panicked)

/-- `BaseWriter.Start(concurrency, buffersize)`: allocates the buffered
channel; the `concurrency` worker loops it launches are modelled by
`runDispatch` below, not as running processes. -/
def BaseWriter.Start (w : BaseWriter) (concurrency buffersize : Nat) : BaseWriter :=
  { w with ch := .opened buffersize [] }

/-- `BaseWriter.Stop()`: closes the channel. -/
def BaseWriter.Stop (w : BaseWriter) : BaseWriter :=
  { w with ch := .closed }

/-- How the worker loop serves one dequeued request. -/
inductive Dispatch where
  | sendLine (client : Nat) (lineProtocol : List Nat)
  | sendColumn (client : Nat) (mst : String) (record : Option Nat)
deriving DecidableEq

/-- The classification step of `BaseWriter.Run`: when
`wr.LineProtocol != nil` the target client's `Send` is invoked with the
payload, otherwise its `SendColumn` with `wr.Mst` and `wr.Record`. -/
def runDispatch (wr : WriteRequest) : Dispatch :=
  match wr.lineProtocol with
  | some lp => .sendLine wr.client lp
  | none => .sendColumn wr.client wr.mst wr.record

/-- The trace of a sequence of `Send` calls: the final writer, the requests
actually passed to `Send` (in order), their outcomes, and whether a panic
cut the sequence short. -/
structure SendTrace where
  writer : BaseWriter
  attempts : List WriteRequest
  outcomes : List SendOutcome
  panicked : Bool
deriving DecidableEq

/-- Runs `Send` on each request in order; a panic aborts the remainder of
the sequence, as it would abort the Go loop issuing the sends. -/
def BaseWriter.sendMany : BaseWriter → List WriteRequest → SendTrace
  | w, [] => ⟨w, [], [], false⟩
  | w, wr :: rest =>
    let p := w.Send wr
    if p.2 = SendOutcome.panicked then ⟨p.1, [wr], [p.2], true⟩
    else
      let t := p.1.sendMany rest
      ⟨t.writer, wr :: t.attempts, p.2 :: t.outcomes, t.panicked⟩

/-- The request list built by `AllWriter.Write`: one request per client
index `0 .. len(clients)-1`, all carrying the same payload. -/
def allWriteRequests (n : Nat) (lineProtocol : Option (List Nat)) : List WriteRequest :=
  (List.range n).map fun i => ⟨i, lineProtocol, "", none⟩

/-- `AllWriter.Write`: broadcast — one `Send` per client. -/
def AllWriter.Write (w : BaseWriter) (lineProtocol : Option (List Nat)) : SendTrace :=
  w.sendMany (allWriteRequests w.clients.length lineProtocol)

/-- The request list built by `AllWriter.WriteColumn`. -/
def allWriteColumnRequests (n : Nat) (mst : String) (record : Option Nat) :
    List WriteRequest :=
  (List.range n).map fun i => ⟨i, none, mst, record⟩

/-- `AllWriter.WriteColumn`: broadcast of a columnar request. -/
def AllWriter.WriteColumn (w : BaseWriter) (mst : String) (record : Option Nat) :
    SendTrace :=
  w.sendMany (allWriteColumnRequests w.clients.length mst record)

/-- One `RoundRobinWriter.Write` call with cursor value `i`. The cursor
update `w.i = (w.i + 1) % len(w.clients)` panics (integer divide by zero)
when the client list is empty; `none` models that panic. On success the
result carries the new writer, the new cursor, the request sent, and the
outcome of the `Send`. -/
def RoundRobinWriter.Write (w : BaseWriter) (i : Nat) (lineProtocol : Option (List Nat)) :
    Option (BaseWriter × Nat × WriteRequest × SendOutcome) :=
  match w.clients.length with
  | 0 => none
  | n + 1 =>
    let wr : WriteRequest := ⟨i, lineProtocol, "", none⟩
    let p := w.Send wr
    some (p.1, (i + 1) % (n + 1), wr, p.2)

/-- `RoundRobinWriter.WriteColumn`: same cursor handling, columnar request. -/
def RoundRobinWriter.WriteColumn (w : BaseWriter) (i : Nat) (mst : String)
    (record : Option Nat) : Option (BaseWriter × Nat × WriteRequest × SendOutcome) :=
  match w.clients.length with
  | 0 => none
  | n + 1 =>
    let wr : WriteRequest := ⟨i, none, mst, record⟩
    let p := w.Send wr
    some (p.1, (i + 1) % (n + 1), wr, p.2)

/-- `m` sequential `RoundRobinWriter.Write` calls with no concurrent
callers, collecting the requests sent; `none` if any call panics (empty
client list, or a send on a closed channel). -/
def rrWriteSeq (w : BaseWriter) (i : Nat) (lineProtocol : Option (List Nat)) :
    Nat → Option (BaseWriter × Nat × List WriteRequest)
  | 0 => some (w, i, [])
  | m + 1 =>
    match RoundRobinWriter.Write w i lineProtocol with
    | none => none
    | some (w', i', wr, o) =>
      if o = SendOutcome.panicked then none
      else (rrWriteSeq w' i' lineProtocol m).map fun t => (t.1, t.2.1, wr :: t.2.2)

/-- The `SubscriberWriter` interface: its two implementations, `AllWriter`
and `RoundRobinWriter` (whose extra state is the round-robin cursor). -/
inductive SWriter where
  | all (w : BaseWriter)
  | roundRobin (w : BaseWriter) (i : Nat)
deriving DecidableEq

/-- The embedded `BaseWriter` of either implementation. -/
def SWriter.base : SWriter → BaseWriter
  | .all w => w
  | .roundRobin w _ => w

/-- `Name()`. -/
def SWriter.name (s : SWriter) : String := s.base.name

/-- `Start` on either implementation. -/
def SWriter.Start (s : SWriter) (concurrency buffersize : Nat) : SWriter :=
  match s with
  | .all w => .all (w.Start concurrency buffersize)
  | .roundRobin w i => .roundRobin (w.Start concurrency buffersize) i

/-- `Stop` on either implementation. -/
def SWriter.Stop : SWriter → SWriter
  | .all w => .all w.Stop
  | .roundRobin w i => .roundRobin w.Stop i

/-- The client-construction loop of `SubscriberManager.NewSubscriberWriter`:
parse each destination, build the scheme-appropriate client, abort the
whole construction on the first error. -/
def buildClients (env : Env) (cfg : SubscriberConfig) :
    List String → Except String (List Client)
  | [] => .ok []
  | dest :: rest =>
    match env.parseURL dest with
    | .error e => .error ("fail to parse " ++ e)
    | .ok u =>
      let cRes : Except String Client :=
        if u.scheme = "http" then
          .ok (.http (NewHTTPClient u cfg.httpTimeout))
        else if u.scheme = "https" then
          match NewHTTPSClient env u cfg.httpTimeout cfg.insecureSkipVerify
              cfg.httpsCertificate with
          | .error e => .error e
          | .ok c => .ok (.http c)
        else if u.scheme = "rpc" then
          match NewRPCClient env u.host with
          | .error e => .error e
          | .ok c => .ok (.rpc c)
        else .error ("unknown subscription schema " ++ u.scheme)
      match cRes with
      | .error e => .error e
      | .ok c =>
        match buildClients env cfg rest with
        | .error e => .error e
        | .ok cs => .ok (c :: cs)

/-- `SubscriberManager.NewSubscriberWriter`: build all clients, then wrap
them in the mode-selected writer; a `RoundRobinWriter` starts with cursor
zero (the Go zero value). -/
def NewSubscriberWriter (env : Env) (cfg : SubscriberConfig) (db rp name mode : String)
    (destinations : List String) : Except String SWriter :=
  match buildClients env cfg destinations with
  | .error e => .error e
  | .ok clients =>
    if mode = "ALL" then .ok (.all (NewBaseWriter db rp name clients))
    else if mode = "ANY" then .ok (.roundRobin (NewBaseWriter db rp name clients) 0)
    else .error ("unknown subscription mode " ++ mode)

/-- `meta.SubscriptionInfo`: the fields the subscriber code reads. -/
structure SubscriptionInfo where
  name : String
  mode : String
  destinations : List String
deriving DecidableEq

/-- `meta.RetentionPolicyInfo`: the fields the subscriber code reads. -/
structure RetentionPolicyInfo where
  name : String
  subscriptions : List SubscriptionInfo
deriving DecidableEq

/-- `meta.DatabaseInfo`: the fields the subscriber code reads. -/
structure DatabaseInfo where
  name : String
  defaultRetentionPolicy : String
  retentionPolicies : List RetentionPolicyInfo
deriving DecidableEq

/-- The loop state of the add-new-subscriptions phase of `UpdateWriters`:
the (growing) writer list, the mutated `originSubs` name set, the writers
created and started so far, and the `changed` flag. The Go `map[string]
struct{}` is represented by a list queried only through membership;
deletion removes every occurrence. -/
structure AddState where
  writers : List SWriter
  originSubs : List String
  created : List SWriter
  changed : Bool
deriving DecidableEq

/-- One iteration of the add-new-subscriptions loop of `UpdateWriters`: a
subscription whose name is not in `originSubs` is built and started by
`create` (a failure is logged and skipped); the processed name is then
deleted from `originSubs`. -/
def addSubsStep (create : SubscriptionInfo → Except String SWriter)
    (st : AddState) (sub : SubscriptionInfo) : AddState :=
  let st' :=
    if sub.name ∈ st.originSubs then st
    else
      match create sub with
      | .error _ => st
      | .ok w =>
        { st with
          writers := st.writers ++ [w]
          created := st.created ++ [w]
          changed := true }
  { st' with originSubs := st'.originSubs.filter (fun n => n ≠ sub.name) }

/-- The add-new-subscriptions loop of `UpdateWriters`; after it, the
remaining `originSubs` names the writers to remove. -/
def addSubs (create : SubscriptionInfo → Except String SWriter) :
    AddState → List SubscriptionInfo → AddState
  | st, [] => st
  | st, sub :: rest => addSubs create (addSubsStep create st sub) rest

/-- The outcome of reconciling one (db, rp) registry entry: the new writer
list, the writers on which `Stop()` was invoked (pre-stop values, in
iteration order), the writers created and started, and whether the entry
was written back to the registry. -/
structure EntryResult where
  writers : List SWriter
  stopped : List SWriter
  created : List SWriter
  mutated : Bool
deriving DecidableEq

/-- The loop state at entry: a present entry starts from its writers with
`changed = false` and `originSubs` holding their names; a missing entry
starts empty with `changed = true`. -/
def entryInit : Option (List SWriter) → AddState
  | some ws => ⟨ws, ws.map SWriter.name, [], false⟩
  | none => ⟨[], [], [], true⟩

/-- The tail of the per-entry body: run the add loop; if no names remain
to remove, keep the (possibly extended) list, mutating only when
`changed`; otherwise compact in place (relative order preserved), stop
the removed writers in iteration order, and mutate. -/
def reconcileFrom (create : SubscriptionInfo → Except String SWriter)
    (init : AddState) (subs : List SubscriptionInfo) : EntryResult :=
  let st := addSubs create init subs
  if st.originSubs.isEmpty then
    ⟨st.writers, [], st.created, st.changed⟩
  else
    ⟨st.writers.filter (fun w => w.name ∉ st.originSubs),
     st.writers.filter (fun w => w.name ∈ st.originSubs),
     st.created, true⟩

/-- The per-(db, rp) body of `SubscriberManager.UpdateWriters`: diff the
running writers against the subscriptions by name, create and start the
new, stop and evict the removed. -/
def reconcileEntry (create : SubscriptionInfo → Except String SWriter)
    (entry : Option (List SWriter)) (subs : List SubscriptionInfo) : EntryResult :=
  reconcileFrom create (entryInit entry) subs

/-- The registry `s.writers`, flattened to (db, rp) granularity: Go's
`map[string]map[string][]SubscriberWriter` distinguishes a missing entry
(`ok = false`) from a present empty list, hence the `Option`. -/
abbrev Registry := String → String → Option (List SWriter)

/-- The write-back `s.writers[db][rp] = ws` performed under the write
lock. -/
def setEntry (reg : Registry) (db rp : String) (ws : List SWriter) : Registry :=
  fun d r =>
    if d = db then (if r = rp then some ws else reg d r) else reg d r

/-- The accumulated effect of `UpdateWriters`: the registry plus the stop
and create events, in occurrence order. -/
structure UpdateState where
  registry : Registry
  stopped : List SWriter
  created : List SWriter

/-- One retention policy of `UpdateWriters`: look the entry up, reconcile,
write back only when the entry mutated. -/
def updateRP (create : String → String → SubscriptionInfo → Except String SWriter)
    (dbName : String) (rp : RetentionPolicyInfo) (st : UpdateState) : UpdateState :=
  let r := reconcileEntry (create dbName rp.name) (st.registry dbName rp.name)
    rp.subscriptions
  { registry :=
      if r.mutated then setEntry st.registry dbName rp.name r.writers else st.registry
    stopped := st.stopped ++ r.stopped
    created := st.created ++ r.created }

/-- `WalkRetentionPolicy` over one database. -/
def updateRPs (create : String → String → SubscriptionInfo → Except String SWriter)
    (dbName : String) : List RetentionPolicyInfo → UpdateState → UpdateState
  | [], st => st
  | rp :: rest, st => updateRPs create dbName rest (updateRP create dbName rp st)

/-- `WalkDatabases` driving `UpdateWriters`. -/
def updateDBs (create : String → String → SubscriptionInfo → Except String SWriter) :
    List DatabaseInfo → UpdateState → UpdateState
  | [], st => st
  | db :: rest, st =>
    updateDBs create rest (updateRPs create db.name db.retentionPolicies st)

/-- `SubscriberManager.UpdateWriters`, parameterized by the writer factory
and by the database list the metadata client reports. -/
def UpdateWriters (create : String → String → SubscriptionInfo → Except String SWriter)
    (dbs : List DatabaseInfo) (reg : Registry) : UpdateState :=
  updateDBs create dbs ⟨reg, [], []⟩

/-- The writer factory `UpdateWriters` and `InitWriters` actually use:
`NewSubscriberWriter` followed by
`Start(WriteConcurrency, WriteBufferSize)`. -/
def managerCreate (env : Env) (cfg : SubscriberConfig) (db rp : String)
    (sub : SubscriptionInfo) : Except String SWriter :=
  (NewSubscriberWriter env cfg db rp sub.name sub.mode sub.destinations).map
    (fun w => w.Start cfg.writeConcurrency cfg.writeBufferSize)

/-- What one `SubscriberManager.Send`/`SendColumn` call did: the retention
policy used for the lookup, the writers the call forwarded to (in order),
and whether the unknown-database error was logged. -/
structure SendReport where
  resolvedRP : String
  targets : List SWriter
  unknownDBLogged : Bool
deriving DecidableEq

/-- `SubscriberManager.Send`: an empty rp is resolved to the database's
default retention policy (a resolution failure is logged and leaves rp
empty); the call then forwards `Write(lineProtocol)` to every writer under
(db, rp) — a missing entry is a silent no-op. `targets` records the
writers forwarded to. -/
def SubscriberManager.Send (database : String → Except String DatabaseInfo)
    (writers : Registry) (db rp : String) (lineProtocol : Option (List Nat)) :
    SendReport :=
  let res : String × Bool :=
    if rp = "" then
      match database db with
      | .error _ => (rp, true)
      | .ok dbi => (dbi.defaultRetentionPolicy, false)
    else (rp, false)
  match writers db res.1 with
  | some ws => ⟨res.1, ws, res.2⟩
  | none => ⟨res.1, [], res.2⟩

/-- `SubscriberManager.SendColumn`: identical resolution and lookup;
forwards `WriteColumn(mst, record)` to every writer under (db, rp). -/
def SubscriberManager.SendColumn (database : String → Except String DatabaseInfo)
    (writers : Registry) (db rp : String) (mst : String) (record : Option Nat) :
    SendReport :=
  let res : String × Bool :=
    if rp = "" then
      match database db with
      | .error _ => (rp, true)
      | .ok dbi => (dbi.defaultRetentionPolicy, false)
    else (rp, false)
  match writers db res.1 with
  | some ws => ⟨res.1, ws, res.2⟩
  | none => ⟨res.1, [], res.2⟩

theorem eta_ch (w : BaseWriter) (c : ChanState) (h : w.ch = c) :
    { w with ch := c } = w := by
  cases w
  subst h
  rfl

/-- `Send` on an open channel leaves the writer unchanged except for the
buffer and cannot panic when the request's client index is in range. -/
theorem Send_opened_shape (w : BaseWriter) (cap : Nat) (buf : List WriteRequest)
    (wr : WriteRequest) (hch : w.ch = ChanState.opened cap buf)
    (hcl : wr.client < w.clients.length) :
    ∃ buf', (w.Send wr).1 = { w with ch := ChanState.opened cap buf' } ∧
      (w.Send wr).2 ≠ SendOutcome.panicked := by
  have hc : w.clients[wr.client]? = some w.clients[wr.client] :=
    List.getElem?_eq_getElem hcl
  by_cases hlt : buf.length < cap
  · exact ⟨buf ++ [wr], by simp [BaseWriter.Send, hch, hlt]⟩
  · refine ⟨buf, ?_, ?_⟩ <;> simp [BaseWriter.Send, hch, hlt, hc]
    exact (eta_ch w _ hch).symm

theorem sendMany_nil (w : BaseWriter) : w.sendMany [] = ⟨w, [], [], false⟩ := rfl

/-- One non-panicking step of `sendMany`, stated so rewriting does not
unfold the recursive call. -/
theorem sendMany_cons_ok (w : BaseWriter) (wr : WriteRequest) (rest : List WriteRequest)
    (w' : BaseWriter) (o : SendOutcome) (h : w.Send wr = (w', o))
    (ho : o ≠ SendOutcome.panicked) :
    w.sendMany (wr :: rest) =
      ⟨(w'.sendMany rest).writer, wr :: (w'.sendMany rest).attempts,
        o :: (w'.sendMany rest).outcomes, (w'.sendMany rest).panicked⟩ := by
  have hstep : w.sendMany (wr :: rest) =
      (if (w.Send wr).2 = SendOutcome.panicked
        then ⟨(w.Send wr).1, [wr], [(w.Send wr).2], true⟩
        else ⟨((w.Send wr).1.sendMany rest).writer,
          wr :: ((w.Send wr).1.sendMany rest).attempts,
          (w.Send wr).2 :: ((w.Send wr).1.sendMany rest).outcomes,
          ((w.Send wr).1.sendMany rest).panicked⟩) := rfl
  rw [hstep, h]
  simp [ho]

/-- A sequence of sends on an open channel attempts every request, never
panics, and preserves the client list and the channel's openness. -/
theorem sendMany_opened (rs : List WriteRequest) :
    ∀ (w : BaseWriter) (cap : Nat) (buf : List WriteRequest),
    w.ch = ChanState.opened cap buf → (∀ r ∈ rs, r.client < w.clients.length) →
    (w.sendMany rs).attempts = rs ∧ (w.sendMany rs).panicked = false ∧
    (w.sendMany rs).writer.clients = w.clients ∧
    ∃ buf', (w.sendMany rs).writer.ch = ChanState.opened cap buf' := by
  induction rs with
  | nil =>
    intro w cap buf hch hv
    exact ⟨rfl, rfl, rfl, buf, hch⟩
  | cons wr rest ih =>
    intro w cap buf hch hv
    obtain ⟨buf2, h1, h2⟩ := Send_opened_shape w cap buf wr hch (hv wr (by simp))
    have hcl : (w.Send wr).1.clients = w.clients := by rw [h1]
    have hch2 : (w.Send wr).1.ch = ChanState.opened cap buf2 := by rw [h1]
    have hv2 : ∀ r ∈ rest, r.client < (w.Send wr).1.clients.length := by
      intro r hr
      rw [hcl]
      exact hv r (by simp [hr])
    obtain ⟨ha, hp, hc, buf3, hb⟩ := ih (w.Send wr).1 cap buf2 hch2 hv2
    simp only [BaseWriter.sendMany]
    rw [if_neg h2]
    exact ⟨by simp [ha], by simp [hp], by simp [hcl ▸ hc], buf3, by simp [hb]⟩

theorem allWriteRequests_client_lt (n : Nat) (lp : Option (List Nat)) :
    ∀ r ∈ allWriteRequests n lp, r.client < n := by
  intro r hr
  simp only [allWriteRequests, List.mem_map, List.mem_range] at hr
  obtain ⟨i, hi, rfl⟩ := hr
  exact hi

theorem allWriteColumnRequests_client_lt (n : Nat) (mst : String) (rec : Option Nat) :
    ∀ r ∈ allWriteColumnRequests n mst rec, r.client < n := by
  intro r hr
  simp only [allWriteColumnRequests, List.mem_map, List.mem_range] at hr
  obtain ⟨i, hi, rfl⟩ := hr
  exact hi

/-- A concrete plain-transport client used by the concrete theorems
below. -/
def httpClientA : Client := .http ⟨⟨"http", "h1", "http://h1"⟩, 30, none⟩

/-- C1: the spec requires that a write issued after `Stop()` neither
panics nor is delivered (dropped or rejected per the non-blocking
contract); but on a writer that was started and then stopped, `Send`'s
select chooses the ready send case on the closed channel, which panics.
This theorem evaluates the code at the failing input. -/
theorem write_after_stop_panics :
    (AllWriter.Write (((NewBaseWriter "db0" "rp0" "sub1" [httpClientA]).Start 1 1).Stop)
        (some [1])).panicked = true
  ∧ (AllWriter.Write (((NewBaseWriter "db0" "rp0" "sub1" [httpClientA]).Start 1 1).Stop)
        (some [1])).outcomes = [SendOutcome.panicked]
  ∧ (AllWriter.WriteColumn (((NewBaseWriter "db0" "rp0" "sub1" [httpClientA]).Start 1 1).Stop)
        "m0" none).panicked = true
  ∧ (RoundRobinWriter.Write (((NewBaseWriter "db0" "rp0" "sub1" [httpClientA]).Start 1 1).Stop)
        0 (some [1])).map (fun p => p.2.2.2) = some SendOutcome.panicked :=
  ⟨rfl, rfl, rfl, rfl⟩

/-- An environment whose flight dial/`DoPut` handshake always fails; the
URI `rpc://h1:8087` parses, everything else is malformed. -/
def envHandshakeFail : Env :=
  { parseURL := fun s =>
      if s = "rpc://h1:8087" then .ok ⟨"rpc", "h1:8087", s⟩ else .error "parse error"
    readFile := fun _ => .error "no file"
    dialFlight := fun _ => .error "handshake failed" }

/-- A concrete `config.Subscriber`. -/
def cfg0 : SubscriberConfig := ⟨30, false, "", 2, 4⟩

/-- C2: a failing authentication handshake for a destination is required
to fail the whole writer construction, but `NewSubscriberWriter` still
returns a writer with no error: `NewRPCClient` discards the dial and
`DoPut` errors (its own `todo` comments acknowledge the missing error
checks), leaving a client with a nil stream. This theorem evaluates the
code at the failing input. -/
theorem rpc_handshake_failure_not_propagated :
    NewSubscriberWriter envHandshakeFail cfg0 "db0" "rp0" "sub1" "ANY" ["rpc://h1:8087"] =
      .ok (.roundRobin ⟨.isNil, [.rpc ⟨"h1:8087", none⟩], "db0", "rp0", "sub1"⟩ 0) := by
  rfl

/-- C5: a broadcast (ALL-mode) writer with an open queue makes exactly
`len(clients)` enqueue attempts per `write` call, one per client index in
order, all carrying the same payload; likewise `writeColumn` with the
same measurement and record. -/
theorem allWriter_broadcast_fanout (w : BaseWriter) (cap : Nat) (buf : List WriteRequest)
    (lp : List Nat) (mst : String) (rec : Option Nat)
    (hch : w.ch = ChanState.opened cap buf) :
    (AllWriter.Write w (some lp)).attempts = allWriteRequests w.clients.length (some lp)
  ∧ (AllWriter.Write w (some lp)).attempts.length = w.clients.length
  ∧ (AllWriter.Write w (some lp)).attempts.map WriteRequest.client =
      List.range w.clients.length
  ∧ (∀ r ∈ (AllWriter.Write w (some lp)).attempts, r.lineProtocol = some lp)
  ∧ (AllWriter.Write w (some lp)).panicked = false
  ∧ (AllWriter.WriteColumn w mst rec).attempts =
      allWriteColumnRequests w.clients.length mst rec
  ∧ (AllWriter.WriteColumn w mst rec).attempts.length = w.clients.length
  ∧ (AllWriter.WriteColumn w mst rec).attempts.map WriteRequest.client =
      List.range w.clients.length
  ∧ (∀ r ∈ (AllWriter.WriteColumn w mst rec).attempts, r.mst = mst ∧ r.record = rec)
  ∧ (AllWriter.WriteColumn w mst rec).panicked = false := by
  obtain ⟨ha, hp, -, -⟩ := sendMany_opened (allWriteRequests w.clients.length (some lp))
    w cap buf hch (allWriteRequests_client_lt _ _)
  obtain ⟨ha2, hp2, -, -⟩ := sendMany_opened (allWriteColumnRequests w.clients.length mst rec)
    w cap buf hch (allWriteColumnRequests_client_lt _ _ _)
  simp only [AllWriter.Write, AllWriter.WriteColumn]
  refine ⟨ha, ?_, ?_, ?_, hp, ha2, ?_, ?_, ?_, hp2⟩
  · rw [ha]
    simp [allWriteRequests]
  · rw [ha]
    simp only [allWriteRequests, List.map_map]
    have hid : (WriteRequest.client ∘ fun i =>
        ({ client := i, lineProtocol := some lp, mst := "", record := none } : WriteRequest)) = id := rfl
    rw [hid, List.map_id]
  · intro r hr
    rw [ha] at hr
    simp only [allWriteRequests, List.mem_map, List.mem_range] at hr
    obtain ⟨i, -, rfl⟩ := hr
    rfl
  · rw [ha2]
    simp [allWriteColumnRequests]
  · rw [ha2]
    simp only [allWriteColumnRequests, List.map_map]
    have hid : (WriteRequest.client ∘ fun i =>
        ({ client := i, lineProtocol := none, mst := mst, record := rec } : WriteRequest)) = id := rfl
    rw [hid, List.map_id]
  · intro r hr
    rw [ha2] at hr
    simp only [allWriteColumnRequests, List.mem_map, List.mem_range] at hr
    obtain ⟨i, -, rfl⟩ := hr
    exact ⟨rfl, rfl⟩

/-- The concrete started broadcast writer used by the C5 witness. -/
def witAllW : BaseWriter :=
  ⟨.opened 4 [], [httpClientA, httpClientA], "db0", "rp0", "s1"⟩

theorem allWriter_broadcast_fanout_witness :
    witAllW.ch = ChanState.opened 4 []
  ∧ (AllWriter.Write witAllW (some [1, 2])).attempts = allWriteRequests 2 (some [1, 2])
  ∧ (AllWriter.Write witAllW (some [1, 2])).panicked = false
  ∧ (AllWriter.WriteColumn witAllW "m0" none).attempts = allWriteColumnRequests 2 "m0" none
  ∧ (AllWriter.WriteColumn witAllW "m0" none).panicked = false := by
  have h := allWriter_broadcast_fanout witAllW 4 [] [1, 2] "m0" none rfl
  exact ⟨rfl, h.1, h.2.2.2.2.1, h.2.2.2.2.2.1, h.2.2.2.2.2.2.2.2.2⟩

/-- C9: `write`/`writeColumn` on a rotation writer with an empty client
list panic (modulo by zero in the cursor update), while the same calls on
a broadcast writer with an empty client list are a harmless no-op; with
at least one client the rotation dispatch is total. -/
theorem empty_clients_dispatch :
    (∀ (w : BaseWriter) (i : Nat) (lp : Option (List Nat)), w.clients = [] →
      RoundRobinWriter.Write w i lp = none)
  ∧ (∀ (w : BaseWriter) (i : Nat) (mst : String) (rec : Option Nat), w.clients = [] →
      RoundRobinWriter.WriteColumn w i mst rec = none)
  ∧ (∀ (w : BaseWriter) (lp : Option (List Nat)), w.clients = [] →
      AllWriter.Write w lp = ⟨w, [], [], false⟩)
  ∧ (∀ (w : BaseWriter) (mst : String) (rec : Option Nat), w.clients = [] →
      AllWriter.WriteColumn w mst rec = ⟨w, [], [], false⟩)
  ∧ (∀ (w : BaseWriter) (i : Nat) (lp : Option (List Nat)), 1 ≤ w.clients.length →
      (RoundRobinWriter.Write w i lp).isSome = true) := by
  refine ⟨?_, ?_, ?_, ?_, ?_⟩
  · intro w i lp h
    simp [RoundRobinWriter.Write, h]
  · intro w i mst rec h
    simp [RoundRobinWriter.WriteColumn, h]
  · intro w lp h
    simp [AllWriter.Write, h, allWriteRequests, BaseWriter.sendMany]
  · intro w mst rec h
    simp [AllWriter.WriteColumn, h, allWriteColumnRequests, BaseWriter.sendMany]
  · intro w i lp h
    obtain ⟨n, hn⟩ : ∃ n, w.clients.length = n + 1 :=
      ⟨w.clients.length - 1, (Nat.succ_pred_eq_of_pos h).symm⟩
    simp [RoundRobinWriter.Write, hn]

theorem empty_clients_dispatch_witness :
    ((⟨ChanState.opened 2 [], [], "db0", "rp0", "s1"⟩ : BaseWriter).clients = [])
  ∧ RoundRobinWriter.Write ⟨ChanState.opened 2 [], [], "db0", "rp0", "s1"⟩ 0 (some [1]) = none
  ∧ AllWriter.Write ⟨ChanState.opened 2 [], [], "db0", "rp0", "s1"⟩ (some [1]) =
      ⟨⟨ChanState.opened 2 [], [], "db0", "rp0", "s1"⟩, [], [], false⟩
  ∧ (1 ≤ (⟨ChanState.opened 2 [], [httpClientA], "db0", "rp0", "s1"⟩ : BaseWriter).clients.length)
  ∧ (RoundRobinWriter.Write ⟨ChanState.opened 2 [], [httpClientA], "db0", "rp0", "s1"⟩ 0
      (some [1])).isSome = true := by
  refine ⟨rfl, ?_, ?_, by decide, ?_⟩
  · exact empty_clients_dispatch.1 _ 0 (some [1]) rfl
  · exact empty_clients_dispatch.2.2.1 _ (some [1]) rfl
  · exact empty_clients_dispatch.2.2.2.2 _ 0 (some [1]) (by decide)

/-- C10: the worker classifies a dequeued request as an encoded-payload
write iff its `LineProtocol` field is non-nil; hence a `write` with a nil
payload is dispatched to `sendColumn` with empty measurement and nil
record, while a `write` with a non-nil empty payload is dispatched to
`send` — for broadcast and rotation writers alike. -/
theorem run_dispatch_classification :
    (∀ wr : WriteRequest, wr.lineProtocol ≠ none ↔
      ∃ lp, runDispatch wr = Dispatch.sendLine wr.client lp)
  ∧ (∀ wr : WriteRequest, wr.lineProtocol = none →
      runDispatch wr = Dispatch.sendColumn wr.client wr.mst wr.record)
  ∧ (∀ (w : BaseWriter) (cap : Nat) (buf : List WriteRequest),
      w.ch = ChanState.opened cap buf →
      (AllWriter.Write w none).attempts.map runDispatch =
        (List.range w.clients.length).map (fun i => Dispatch.sendColumn i "" none)
    ∧ (AllWriter.Write w (some [])).attempts.map runDispatch =
        (List.range w.clients.length).map (fun i => Dispatch.sendLine i []))
  ∧ (∀ (w : BaseWriter) (i : Nat) (lp : List Nat), 1 ≤ w.clients.length →
      (∃ p, RoundRobinWriter.Write w i none = some p ∧
        runDispatch p.2.2.1 = Dispatch.sendColumn i "" none)
    ∧ (∃ p, RoundRobinWriter.Write w i (some lp) = some p ∧
        runDispatch p.2.2.1 = Dispatch.sendLine i lp)) := by
  refine ⟨?_, ?_, ?_, ?_⟩
  · intro wr
    constructor
    · intro hne
      match h : wr.lineProtocol with
      | some lp => exact ⟨lp, by simp [runDispatch, h]⟩
      | none => exact absurd h hne
    · rintro ⟨lp, hlp⟩ hnone
      simp [runDispatch, hnone] at hlp
  · intro wr h
    simp [runDispatch, h]
  · intro w cap buf hch
    obtain ⟨ha, -, -, -⟩ := sendMany_opened (allWriteRequests w.clients.length none)
      w cap buf hch (allWriteRequests_client_lt _ _)
    obtain ⟨ha2, -, -, -⟩ := sendMany_opened (allWriteRequests w.clients.length (some []))
      w cap buf hch (allWriteRequests_client_lt _ _)
    constructor
    · show (w.sendMany (allWriteRequests w.clients.length none)).attempts.map runDispatch = _
      rw [ha]
      simp only [allWriteRequests, List.map_map]
      rfl
    · show (w.sendMany (allWriteRequests w.clients.length (some []))).attempts.map runDispatch = _
      rw [ha2]
      simp only [allWriteRequests, List.map_map]
      rfl
  · intro w i lp h
    obtain ⟨n, hn⟩ : ∃ n, w.clients.length = n + 1 :=
      ⟨w.clients.length - 1, (Nat.succ_pred_eq_of_pos h).symm⟩
    constructor
    · refine ⟨((w.Send ⟨i, none, "", none⟩).1, (i + 1) % (n + 1), ⟨i, none, "", none⟩,
        (w.Send ⟨i, none, "", none⟩).2), ?_, rfl⟩
      simp [RoundRobinWriter.Write, hn]
    · refine ⟨((w.Send ⟨i, some lp, "", none⟩).1, (i + 1) % (n + 1), ⟨i, some lp, "", none⟩,
        (w.Send ⟨i, some lp, "", none⟩).2), ?_, rfl⟩
      simp [RoundRobinWriter.Write, hn]

theorem run_dispatch_classification_witness :
    ((⟨0, none, "m0", none⟩ : WriteRequest).lineProtocol = none →
      runDispatch ⟨0, none, "m0", none⟩ = Dispatch.sendColumn 0 "m0" none)
  ∧ (witAllW.ch = ChanState.opened 4 [])
  ∧ (AllWriter.Write witAllW none).attempts.map runDispatch =
      (List.range 2).map (fun i => Dispatch.sendColumn i "" none)
  ∧ (AllWriter.Write witAllW (some [])).attempts.map runDispatch =
      (List.range 2).map (fun i => Dispatch.sendLine i []) := by
  have h := run_dispatch_classification
  exact ⟨h.2.1 ⟨0, none, "m0", none⟩, rfl, (h.2.2.1 witAllW 4 [] rfl).1,
    (h.2.2.1 witAllW 4 [] rfl).2⟩

/-- Filling an open queue: from a buffer with `k` free slots and one more
request than fits, the first `k` sends enqueue and the last is dropped
with the (destination, db, rp) log record; nothing panics and no error is
returned to the caller. -/
theorem sendMany_fill_then_drop (wr : WriteRequest) (c : Client) (cap : Nat) :
    ∀ (k : Nat) (w : BaseWriter) (buf : List WriteRequest),
    w.ch = ChanState.opened cap buf → buf.length + k = cap →
    w.clients[wr.client]? = some c →
    w.sendMany (List.replicate (k + 1) wr) =
      ⟨{ w with ch := ChanState.opened cap (buf ++ List.replicate k wr) },
        List.replicate (k + 1) wr,
        List.replicate k SendOutcome.enqueued ++
          [SendOutcome.dropped ⟨c.Destination, w.db, w.rp⟩],
        false⟩ := by
  intro k
  induction k with
  | zero =>
    intro w buf hch hlen hc
    have hfull : ¬ buf.length < cap := by omega
    have hsend : w.Send wr = (w, .dropped ⟨c.Destination, w.db, w.rp⟩) := by
      simp [BaseWriter.Send, hch, hfull, hc]
    have h1 : List.replicate (0 + 1) wr = [wr] := rfl
    rw [h1, sendMany_cons_ok w wr [] w (.dropped ⟨c.Destination, w.db, w.rp⟩) hsend
      (by simp)]
    simp only [sendMany_nil]
    rw [show List.replicate 0 wr = ([] : List WriteRequest) from rfl, List.append_nil,
      eta_ch w _ hch]
    simp
  | succ k ih =>
    intro w buf hch hlen hc
    have hlt : buf.length < cap := by omega
    have hsend : w.Send wr =
        ({ w with ch := ChanState.opened cap (buf ++ [wr]) }, .enqueued) := by
      simp [BaseWriter.Send, hch, hlt]
    have hrec := ih { w with ch := ChanState.opened cap (buf ++ [wr]) } (buf ++ [wr])
      rfl (by simp; omega) hc
    have h1 : List.replicate (k + 1 + 1) wr = wr :: List.replicate (k + 1) wr := rfl
    rw [h1, sendMany_cons_ok w wr (List.replicate (k + 1) wr) _ _ hsend (by simp), hrec]
    simp [List.append_assoc, List.replicate_succ]

/-- C7: with queue capacity `C`, no worker consuming, and a freshly started
(empty) queue, `C + 1` identical write requests all complete: the first
`C` are buffered, the `(C+1)`-th is dropped and logged with (destination,
db, rp); no panic, and `Send` has no error channel back to the caller. -/
theorem send_drop_on_full (w : BaseWriter) (cap : Nat) (wr : WriteRequest) (c : Client)
    (hch : w.ch = ChanState.opened cap []) (hc : w.clients[wr.client]? = some c) :
    w.sendMany (List.replicate (cap + 1) wr) =
      ⟨{ w with ch := ChanState.opened cap (List.replicate cap wr) },
        List.replicate (cap + 1) wr,
        List.replicate cap SendOutcome.enqueued ++
          [SendOutcome.dropped ⟨c.Destination, w.db, w.rp⟩],
        false⟩ := by
  have h := sendMany_fill_then_drop wr c cap cap w [] hch (by simp) hc
  simpa using h

theorem send_drop_on_full_witness :
    ((⟨ChanState.opened 2 [], [httpClientA], "db0", "rp0", "s1"⟩ : BaseWriter).ch =
      ChanState.opened 2 [])
  ∧ (⟨ChanState.opened 2 [], [httpClientA], "db0", "rp0", "s1"⟩ :
      BaseWriter).clients[(0 : Nat)]? = some httpClientA
  ∧ (⟨ChanState.opened 2 [], [httpClientA], "db0", "rp0", "s1"⟩ :
        BaseWriter).sendMany (List.replicate 3 ⟨0, some [1], "", none⟩) =
      ⟨⟨ChanState.opened 2 (List.replicate 2 ⟨0, some [1], "", none⟩), [httpClientA],
          "db0", "rp0", "s1"⟩,
        List.replicate 3 ⟨0, some [1], "", none⟩,
        List.replicate 2 SendOutcome.enqueued ++
          [SendOutcome.dropped ⟨"http://h1", "db0", "rp0"⟩],
        false⟩ := by
  refine ⟨rfl, rfl, ?_⟩
  exact send_drop_on_full ⟨ChanState.opened 2 [], [httpClientA], "db0", "rp0", "s1"⟩ 2
    ⟨0, some [1], "", none⟩ httpClientA rfl rfl

/-- Sequential round-robin writes from any in-range cursor: call `k`
targets client `(i + k) % n`, the cursor advances modulo `n`, and the
channel stays open. -/
theorem rrWriteSeq_spec (lp : Option (List Nat)) (n : Nat) (hpos : 0 < n) :
    ∀ (m : Nat) (w : BaseWriter) (i cap : Nat) (buf : List WriteRequest),
    w.clients.length = n → i < n → w.ch = ChanState.opened cap buf →
    ∃ w' buf', rrWriteSeq w i lp m =
        some (w', (i + m) % n,
          (List.range m).map (fun k => (⟨(i + k) % n, lp, "", none⟩ : WriteRequest)))
      ∧ w'.ch = ChanState.opened cap buf' ∧ w'.clients = w.clients := by
  intro m
  induction m with
  | zero =>
    intro w i cap buf hn hi hch
    refine ⟨w, buf, ?_, hch, rfl⟩
    simp [rrWriteSeq, Nat.mod_eq_of_lt hi]
  | succ m ih =>
    intro w i cap buf hn hi hch
    obtain ⟨n', rfl⟩ : ∃ n', n = n' + 1 := ⟨n - 1, (Nat.succ_pred_eq_of_pos hpos).symm⟩
    have hwr : RoundRobinWriter.Write w i lp =
        some ((w.Send ⟨i, lp, "", none⟩).1, (i + 1) % (n' + 1), ⟨i, lp, "", none⟩,
          (w.Send ⟨i, lp, "", none⟩).2) := by
      simp [RoundRobinWriter.Write, hn]
    obtain ⟨buf2, h1, h2⟩ := Send_opened_shape w cap buf ⟨i, lp, "", none⟩ hch
      (by simpa [hn] using hi)
    have hch2 : (w.Send ⟨i, lp, "", none⟩).1.ch = ChanState.opened cap buf2 := by rw [h1]
    have hcl2 : (w.Send ⟨i, lp, "", none⟩).1.clients = w.clients := by rw [h1]
    have hi2 : (i + 1) % (n' + 1) < n' + 1 := Nat.mod_lt _ hpos
    obtain ⟨w', buf', hseq, hch', hcl'⟩ := ih (w.Send ⟨i, lp, "", none⟩).1
      ((i + 1) % (n' + 1)) cap buf2 (by rw [hcl2, hn]) hi2 hch2
    refine ⟨w', buf', ?_, hch', by rw [hcl', hcl2]⟩
    have hstep : rrWriteSeq w i lp (m + 1) =
        (match RoundRobinWriter.Write w i lp with
        | none => none
        | some (w2, i2, wr, o) =>
          if o = SendOutcome.panicked then none
          else (rrWriteSeq w2 i2 lp m).map fun t => (t.1, t.2.1, wr :: t.2.2)) := rfl
    rw [hstep, hwr]
    simp only [if_neg h2, hseq, Option.map_some']
    have hcursor : ((i + 1) % (n' + 1) + m) % (n' + 1) = (i + (m + 1)) % (n' + 1) := by
      rw [Nat.mod_add_mod]
      congr 1
      omega
    have hlist : (⟨i, lp, "", none⟩ : WriteRequest) ::
        (List.range m).map (fun k => (⟨((i + 1) % (n' + 1) + k) % (n' + 1), lp, "", none⟩ :
          WriteRequest)) =
        (List.range (m + 1)).map (fun k => (⟨(i + k) % (n' + 1), lp, "", none⟩ :
          WriteRequest)) := by
      rw [List.range_succ_eq_map, List.map_cons, List.map_map]
      congr 1
      · simp [Nat.mod_eq_of_lt hi]
      · apply List.map_congr_left
        intro k hk
        simp only [Function.comp]
        congr 1
        rw [Nat.mod_add_mod]
        congr 1
        omega
    rw [hcursor, hlist]

/-- C6: a rotation (ANY-mode) writer with `n ≥ 1` clients and an open
queue: `m` sequential `write` calls with no concurrent callers enqueue
exactly one request each, targeting clients in the cyclic sequence `0, 1,
..., n-1, 0, 1, ...`; the cursor ends at `m % n`. -/
theorem roundRobin_cyclic_targets (w : BaseWriter) (n cap m : Nat)
    (buf : List WriteRequest) (lp : Option (List Nat))
    (hn : w.clients.length = n) (hpos : 1 ≤ n) (hch : w.ch = ChanState.opened cap buf) :
    ∃ w', rrWriteSeq w 0 lp m =
      some (w', m % n,
        (List.range m).map (fun k => (⟨k % n, lp, "", none⟩ : WriteRequest))) := by
  obtain ⟨w', buf', hseq, -, -⟩ := rrWriteSeq_spec lp n hpos m w 0 cap buf hn hpos hch
  refine ⟨w', ?_⟩
  simpa using hseq

/-- The concrete started rotation base writer used by the C6 witness. -/
def witRRW : BaseWriter :=
  ⟨.opened 4 [], [httpClientA, httpClientA], "db0", "rp0", "s2"⟩

theorem roundRobin_cyclic_targets_witness :
    witRRW.clients.length = 2 ∧ 1 ≤ 2 ∧ witRRW.ch = ChanState.opened 4 []
  ∧ ∃ w', rrWriteSeq witRRW 0 (some [7]) 5 =
      some (w', 5 % 2,
        (List.range 5).map (fun k => (⟨k % 2, some [7], "", none⟩ : WriteRequest))) :=
  ⟨rfl, by omega, rfl, roundRobin_cyclic_targets witRRW 2 4 5 [] (some [7]) rfl (by omega) rfl⟩

/-- C8: `SubscriberManager.Send`/`SendColumn` with an empty retention
policy resolve it to the database's default retention policy and forward
only to the writers registered under that (db, rp) pair; when the
database cannot be resolved the failure is logged and — provided the
registry holds no entry under the empty rp name, which only retention
policy names key it — nothing is forwarded. -/
theorem send_resolves_default_rp (database : String → Except String DatabaseInfo)
    (writers : Registry) (db : String) (lp : Option (List Nat)) (mst : String)
    (rec : Option Nat) :
    (∀ dbi, database db = .ok dbi →
        SubscriberManager.Send database writers db "" lp =
          ⟨dbi.defaultRetentionPolicy, (writers db dbi.defaultRetentionPolicy).getD [],
            false⟩
      ∧ SubscriberManager.SendColumn database writers db "" mst rec =
          ⟨dbi.defaultRetentionPolicy, (writers db dbi.defaultRetentionPolicy).getD [],
            false⟩)
  ∧ (∀ e, database db = .error e → writers db "" = none →
        SubscriberManager.Send database writers db "" lp = ⟨"", [], true⟩
      ∧ SubscriberManager.SendColumn database writers db "" mst rec = ⟨"", [], true⟩) := by
  constructor
  · intro dbi hdb
    constructor
    · cases hw : writers db dbi.defaultRetentionPolicy <;>
        simp [SubscriberManager.Send, hdb, hw]
    · cases hw : writers db dbi.defaultRetentionPolicy <;>
        simp [SubscriberManager.SendColumn, hdb, hw]
  · intro e hdb hw
    constructor
    · simp [SubscriberManager.Send, hdb, hw]
    · simp [SubscriberManager.SendColumn, hdb, hw]

theorem addSubsStep_originSubs (create : SubscriptionInfo → Except String SWriter)
    (st : AddState) (sub : SubscriptionInfo) :
    (addSubsStep create st sub).originSubs =
      st.originSubs.filter (fun n => n ≠ sub.name) := by
  unfold addSubsStep
  by_cases h : sub.name ∈ st.originSubs
  · simp [h]
  · simp only [if_neg h]
    cases hc : create sub <;> rfl

theorem addSubsStep_writers (create : SubscriptionInfo → Except String SWriter)
    (st : AddState) (sub : SubscriptionInfo) :
    ∃ app : List SWriter, (addSubsStep create st sub).writers = st.writers ++ app := by
  unfold addSubsStep
  by_cases h : sub.name ∈ st.originSubs
  · exact ⟨[], by simp [h]⟩
  · simp only [if_neg h]
    cases hc : create sub with
    | error e => exact ⟨[], by simp⟩
    | ok w => exact ⟨[w], rfl⟩

/-- `addSubs` only deletes from the origin set: the final set is the
initial one minus every processed subscription name. -/
theorem addSubs_originSubs (create : SubscriptionInfo → Except String SWriter) :
    ∀ (subs : List SubscriptionInfo) (st : AddState),
    (addSubs create st subs).originSubs =
      st.originSubs.filter (fun n => n ∉ subs.map SubscriptionInfo.name) := by
  intro subs
  induction subs with
  | nil =>
    intro st
    simp [addSubs]
  | cons sub rest ih =>
    intro st
    rw [show addSubs create st (sub :: rest) =
      addSubs create (addSubsStep create st sub) rest from rfl]
    rw [ih, addSubsStep_originSubs, List.filter_filter]
    apply List.filter_congr
    intro a _
    by_cases hab : a = sub.name <;> simp [hab, List.mem_cons, Bool.and_comm]

/-- The add loop appends the created writers in order; the `changed` flag
records whether any were created; each comes from a successful `create`
on one of the processed subscriptions. -/
theorem addSubs_writers_created (create : SubscriptionInfo → Except String SWriter) :
    ∀ (subs : List SubscriptionInfo) (st : AddState), ∃ new : List SWriter,
    (addSubs create st subs).writers = st.writers ++ new ∧
    (addSubs create st subs).created = st.created ++ new ∧
    (addSubs create st subs).changed = (st.changed || !new.isEmpty) ∧
    ∀ w ∈ new, ∃ s ∈ subs, create s = .ok w := by
  intro subs
  induction subs with
  | nil =>
    intro st
    exact ⟨[], by simp [addSubs], by simp [addSubs], by simp [addSubs], by simp⟩
  | cons sub rest ih =>
    intro st
    rw [show addSubs create st (sub :: rest) =
      addSubs create (addSubsStep create st sub) rest from rfl]
    obtain ⟨new, h1, h2, h3, h4⟩ := ih (addSubsStep create st sub)
    by_cases h : sub.name ∈ st.originSubs
    · have hw : (addSubsStep create st sub).writers = st.writers := by
        simp [addSubsStep, h]
      have hc2 : (addSubsStep create st sub).created = st.created := by
        simp [addSubsStep, h]
      have hch : (addSubsStep create st sub).changed = st.changed := by
        simp [addSubsStep, h]
      exact ⟨new, by rw [h1, hw], by rw [h2, hc2], by rw [h3, hch],
        fun w hw' => (h4 w hw').imp (fun s hs => ⟨List.mem_cons_of_mem _ hs.1, hs.2⟩)⟩
    · cases hc : create sub with
      | error e =>
        have hw : (addSubsStep create st sub).writers = st.writers := by
          simp [addSubsStep, h, hc]
        have hc2 : (addSubsStep create st sub).created = st.created := by
          simp [addSubsStep, h, hc]
        have hch : (addSubsStep create st sub).changed = st.changed := by
          simp [addSubsStep, h, hc]
        exact ⟨new, by rw [h1, hw], by rw [h2, hc2], by rw [h3, hch],
          fun w hw' => (h4 w hw').imp (fun s hs => ⟨List.mem_cons_of_mem _ hs.1, hs.2⟩)⟩
      | ok w =>
        have hw : (addSubsStep create st sub).writers = st.writers ++ [w] := by
          simp [addSubsStep, h, hc]
        have hc2 : (addSubsStep create st sub).created = st.created ++ [w] := by
          simp [addSubsStep, h, hc]
        have hch : (addSubsStep create st sub).changed = true := by
          simp [addSubsStep, h, hc]
        refine ⟨w :: new, ?_, ?_, ?_, ?_⟩
        · rw [h1, hw, List.append_assoc]
          rfl
        · rw [h2, hc2, List.append_assoc]
          rfl
        · rw [h3, hch]
          simp
        · intro w' hw'
          rcases List.mem_cons.mp hw' with rfl | hmem
          · exact ⟨sub, List.mem_cons_self _ _, hc⟩
          · exact (h4 w' hmem).imp (fun s hs => ⟨List.mem_cons_of_mem _ hs.1, hs.2⟩)

/-- Any subscription the factory can build ends with a writer of its name
in the list: either one already existed (and survives the add loop) or
one is created, provided `originSubs` only names existing writers. -/
theorem addSubs_ok_name_mem (create : SubscriptionInfo → Except String SWriter)
    (hcn : ∀ s w, create s = .ok w → SWriter.name w = s.name) :
    ∀ (subs : List SubscriptionInfo) (st : AddState),
    (∀ n ∈ st.originSubs, n ∈ st.writers.map SWriter.name) →
    ∀ s ∈ subs, ∀ w, create s = .ok w →
    s.name ∈ (addSubs create st subs).writers.map SWriter.name := by
  intro subs
  induction subs with
  | nil =>
    intro st hinv s hs w hok
    exact absurd hs (List.not_mem_nil s)
  | cons sub rest ih =>
    intro st hinv s hs w hok
    rw [show addSubs create st (sub :: rest) =
      addSubs create (addSubsStep create st sub) rest from rfl]
    obtain ⟨app, happ⟩ := addSubsStep_writers create st sub
    have hinv2 : ∀ n ∈ (addSubsStep create st sub).originSubs,
        n ∈ (addSubsStep create st sub).writers.map SWriter.name := by
      intro n hn
      rw [addSubsStep_originSubs] at hn
      have hn' := List.mem_of_mem_filter hn
      rw [happ, List.map_append]
      exact List.mem_append_left _ (hinv n hn')
    rcases List.mem_cons.mp hs with rfl | hmem
    · have hstep : s.name ∈ (addSubsStep create st s).writers.map SWriter.name := by
        by_cases h : s.name ∈ st.originSubs
        · rw [happ, List.map_append]
          exact List.mem_append_left _ (hinv _ h)
        · have hw : (addSubsStep create st s).writers = st.writers ++ [w] := by
            simp [addSubsStep, h, hok]
          rw [hw, List.map_append]
          refine List.mem_append_right _ ?_
          simp [hcn s w hok]
      obtain ⟨new, h1, -, -, -⟩ := addSubs_writers_created create rest (addSubsStep create st s)
      rw [h1, List.map_append]
      exact List.mem_append_left _ hstep
    · exact ih (addSubsStep create st sub) hinv2 s hmem w hok

/-- When every buildable subscription name is already in the origin set
and the names are distinct, the add loop is a pure deletion pass. -/
theorem addSubs_stable (create : SubscriptionInfo → Except String SWriter) :
    ∀ (subs : List SubscriptionInfo) (st : AddState),
    (subs.map SubscriptionInfo.name).Nodup →
    (∀ s ∈ subs, ∀ w, create s = .ok w → s.name ∈ st.originSubs) →
    addSubs create st subs =
      { st with originSubs :=
          st.originSubs.filter (fun n => n ∉ subs.map SubscriptionInfo.name) } := by
  intro subs
  induction subs with
  | nil =>
    intro st _ _
    cases st
    simp [addSubs]
  | cons sub rest ih =>
    intro st hnd hok
    have hstep : addSubsStep create st sub =
        { st with originSubs := st.originSubs.filter (fun n => n ≠ sub.name) } := by
      by_cases h : sub.name ∈ st.originSubs
      · simp [addSubsStep, h]
      · cases hc : create sub with
        | error e => simp [addSubsStep, h, hc]
        | ok w => exact absurd (hok sub (List.mem_cons_self _ _) w hc) h
    rw [show addSubs create st (sub :: rest) =
      addSubs create (addSubsStep create st sub) rest from rfl, hstep]
    rw [List.map_cons, List.nodup_cons] at hnd
    have hok2 : ∀ s ∈ rest, ∀ w, create s = .ok w →
        s.name ∈ st.originSubs.filter (fun n => n ≠ sub.name) := by
      intro s hs w hw
      apply List.mem_filter.mpr
      refine ⟨hok s (List.mem_cons_of_mem _ hs) w hw, ?_⟩
      have hne : s.name ≠ sub.name := by
        intro he
        exact hnd.1 (he ▸ List.mem_map_of_mem SubscriptionInfo.name hs)
      simpa using hne
    rw [ih _ hnd.2 hok2]
    congr 1
    rw [List.filter_filter]
    apply List.filter_congr
    intro a _
    by_cases hab : a = sub.name <;> simp [hab, List.mem_cons, Bool.and_comm]

/-- Every writer surviving reconciliation bears the name of some current
subscription. -/
theorem reconcileFrom_names (create : SubscriptionInfo → Except String SWriter)
    (hcn : ∀ s w, create s = .ok w → SWriter.name w = s.name)
    (init : AddState) (subs : List SubscriptionInfo)
    (hio : init.originSubs = init.writers.map SWriter.name) :
    ∀ w ∈ (reconcileFrom create init subs).writers,
      SWriter.name w ∈ subs.map SubscriptionInfo.name := by
  intro w hw
  obtain ⟨new, h1, -, -, h4⟩ := addSubs_writers_created create subs init
  have horig := addSubs_originSubs create subs init
  have hnew : ∀ w' ∈ new, SWriter.name w' ∈ subs.map SubscriptionInfo.name := by
    intro w' hw'
    obtain ⟨s, hs, hok⟩ := h4 w' hw'
    rw [hcn s w' hok]
    exact List.mem_map_of_mem _ hs
  unfold reconcileFrom at hw
  by_cases hE : (addSubs create init subs).originSubs.isEmpty = true
  · rw [if_pos hE] at hw
    rw [horig] at hE
    have hall := List.isEmpty_iff.mp hE
    rw [List.filter_eq_nil_iff] at hall
    rw [h1] at hw
    rcases List.mem_append.mp hw with hmem | hmem
    · have := hall (SWriter.name w) (hio ▸ List.mem_map_of_mem _ hmem)
      simpa using this
    · exact hnew w hmem
  · rw [if_neg hE] at hw
    have hw2 := List.mem_filter.mp hw
    rw [h1] at hw2
    rcases List.mem_append.mp hw2.1 with hmem | hmem
    · by_contra hnot
      have hin : SWriter.name w ∈ (addSubs create init subs).originSubs := by
        rw [horig]
        apply List.mem_filter.mpr
        exact ⟨hio ▸ List.mem_map_of_mem _ hmem, by simpa using hnot⟩
      have := hw2.2
      simp [hin] at this
    · exact hnew w hmem

/-- A subscription the factory can build keeps a writer with its name in
the reconciled list. -/
theorem reconcileFrom_ok_mem (create : SubscriptionInfo → Except String SWriter)
    (hcn : ∀ s w, create s = .ok w → SWriter.name w = s.name)
    (init : AddState) (subs : List SubscriptionInfo)
    (hio : ∀ n ∈ init.originSubs, n ∈ init.writers.map SWriter.name) :
    ∀ s ∈ subs, ∀ w, create s = .ok w →
    s.name ∈ (reconcileFrom create init subs).writers.map SWriter.name := by
  intro s hs w hok
  have hmem := addSubs_ok_name_mem create hcn subs init hio s hs w hok
  obtain ⟨w', hw', hname⟩ := List.mem_map.mp hmem
  unfold reconcileFrom
  by_cases hE : (addSubs create init subs).originSubs.isEmpty = true
  · rw [if_pos hE]
    exact hmem
  · rw [if_neg hE]
    apply List.mem_map.mpr
    refine ⟨w', List.mem_filter.mpr ⟨hw', ?_⟩, hname⟩
    have hsn : s.name ∈ subs.map SubscriptionInfo.name := List.mem_map_of_mem _ hs
    rw [addSubs_originSubs]
    obtain ⟨x, hx, hxn⟩ := List.mem_map.mp hsn
    simp only [List.mem_filter, hname, decide_not, List.mem_map, not_and, Bool.not_eq_true',
      decide_eq_false_iff_not, not_forall, Decidable.not_not]
    rw [decide_eq_true_eq]
    intro hmem2
    exact ⟨x, hx, hxn⟩

/-- Reconciling an entry whose writer names already match the buildable
subscription names (with distinct subscription names) is a no-op: nothing
stopped, nothing created, no mutation. -/
theorem reconcileEntry_stable (create : SubscriptionInfo → Except String SWriter)
    (subs : List SubscriptionInfo) (w1 : List SWriter)
    (hnd : (subs.map SubscriptionInfo.name).Nodup)
    (hw : ∀ w ∈ w1, SWriter.name w ∈ subs.map SubscriptionInfo.name)
    (hok : ∀ s ∈ subs, ∀ w, create s = .ok w → s.name ∈ w1.map SWriter.name) :
    reconcileEntry create (some w1) subs = ⟨w1, [], [], false⟩ := by
  unfold reconcileEntry entryInit reconcileFrom
  have hst := addSubs_stable create subs ⟨w1, w1.map SWriter.name, [], false⟩ hnd hok
  rw [hst]
  have hfil : (w1.map SWriter.name).filter
      (fun n => n ∉ subs.map SubscriptionInfo.name) = [] := by
    rw [List.filter_eq_nil_iff]
    intro a ha
    obtain ⟨w, hw1, rfl⟩ := List.mem_map.mp ha
    simp [hw w hw1]
  simp [hfil]
  intro x hx
  obtain ⟨sx, hsx, hsxn⟩ := List.mem_map.mp (hw x hx)
  exact ⟨sx, hsx, hsxn⟩

/-- The writers a reconciliation leaves behind reconcile to a fixed point:
a second pass with the same subscriptions changes nothing. -/
theorem reconcileEntry_post (create : SubscriptionInfo → Except String SWriter)
    (hcn : ∀ s w, create s = .ok w → SWriter.name w = s.name)
    (entry : Option (List SWriter)) (subs : List SubscriptionInfo)
    (hnd : (subs.map SubscriptionInfo.name).Nodup) :
    reconcileEntry create (some (reconcileEntry create entry subs).writers) subs =
      ⟨(reconcileEntry create entry subs).writers, [], [], false⟩ := by
  apply reconcileEntry_stable create subs _ hnd
  · intro w hw
    exact reconcileFrom_names create hcn (entryInit entry) subs
      (by cases entry <;> rfl) w hw
  · intro s hs w hok
    refine reconcileFrom_ok_mem create hcn (entryInit entry) subs ?_ s hs w hok
    intro n hn
    cases entry with
    | none => exact absurd hn (List.not_mem_nil n)
    | some ws => exact hn

/-- When reconciliation reports no mutation, the entry existed and already
equals the result's writer list. -/
theorem reconcileEntry_not_mutated (create : SubscriptionInfo → Except String SWriter)
    (entry : Option (List SWriter)) (subs : List SubscriptionInfo)
    (h : (reconcileEntry create entry subs).mutated = false) :
    entry = some (reconcileEntry create entry subs).writers := by
  obtain ⟨new, h1, h2, h3, h4⟩ := addSubs_writers_created create subs (entryInit entry)
  unfold reconcileEntry reconcileFrom at h ⊢
  by_cases hE : (addSubs create (entryInit entry) subs).originSubs.isEmpty = true
  · rw [if_pos hE] at h ⊢
    cases entry with
    | none =>
      exfalso
      rw [h3] at h
      simp [entryInit] at h
    | some ws =>
      rw [h3] at h
      simp only [entryInit, Bool.false_or] at h
      have hnew : new = [] := by
        cases new with
        | nil => rfl
        | cons a t => simp at h
      rw [h1, hnew]
      simp [entryInit]
  · rw [if_neg hE] at h
    exact absurd h (by simp)

/-- C3: an entry running writers named A, B, C reconciled against a
specification naming A, D (all names distinct, D buildable) yields exactly
the writer list [A, D] — the original A object followed by the newly
created D (relative order of kept writers preserved); B and C are each
stopped exactly once; A is neither stopped nor recreated (the only
creation is D); the entry is written back. -/
theorem updateWriters_partitions (create : SubscriptionInfo → Except String SWriter)
    (wA wB wC wD : SWriter) (a b c d : String) (subA subD : SubscriptionInfo)
    (hA : SWriter.name wA = a) (hB : SWriter.name wB = b) (hC : SWriter.name wC = c)
    (hD : SWriter.name wD = d)
    (hab : a ≠ b) (hac : a ≠ c) (had : a ≠ d) (hbc : b ≠ c) (hbd : b ≠ d) (hcd : c ≠ d)
    (hsA : subA.name = a) (hsD : subD.name = d)
    (hcreate : create subD = .ok wD) :
    reconcileEntry create (some [wA, wB, wC]) [subA, subD] =
      ⟨[wA, wD], [wB, wC], [wD], true⟩ := by
  subst hA hB hC hD
  have hba := hab.symm
  have hca := hac.symm
  have hda := had.symm
  have hcb := hbc.symm
  have hdb := hbd.symm
  have hdc := hcd.symm
  have hstep1 : addSubsStep create
      ⟨[wA, wB, wC], [wA.name, wB.name, wC.name], [], false⟩ subA =
      ⟨[wA, wB, wC], [wB.name, wC.name], [], false⟩ := by
    simp [addSubsStep, hsA, hba, hca]
  have hstep2 : addSubsStep create
      ⟨[wA, wB, wC], [wB.name, wC.name], [], false⟩ subD =
      ⟨[wA, wB, wC, wD], [wB.name, wC.name], [wD], true⟩ := by
    simp [addSubsStep, hsD, hdb, hdc, hcreate]
    exact ⟨hbd, hcd⟩
  have hadd : addSubs create ⟨[wA, wB, wC], [wA.name, wB.name, wC.name], [], false⟩
      [subA, subD] = ⟨[wA, wB, wC, wD], [wB.name, wC.name], [wD], true⟩ := by
    rw [show addSubs create ⟨[wA, wB, wC], [wA.name, wB.name, wC.name], [], false⟩
        [subA, subD] = addSubs create (addSubsStep create
          (addSubsStep create ⟨[wA, wB, wC], [wA.name, wB.name, wC.name], [], false⟩
            subA) subD) [] from rfl, hstep1, hstep2]
    rfl
  rw [show reconcileEntry create (some [wA, wB, wC]) [subA, subD] =
    reconcileFrom create ⟨[wA, wB, wC], [wA.name, wB.name, wC.name], [], false⟩
      [subA, subD] from rfl]
  unfold reconcileFrom
  rw [hadd]
  simp [hab, hac, had, hba, hca, hda, hbd, hcd, hdb, hdc]

/-- A concrete stopped-less writer constructor for the reconciliation
witnesses: an `AllWriter` with no clients, started. -/
def witNamed (s : String) : SWriter := .all ⟨.opened 1 [], [], "db0", "rp0", s⟩

/-- The writer factory the reconciliation witnesses use: only the
subscription named D is buildable. -/
def createOnlyD : SubscriptionInfo → Except String SWriter := fun sub =>
  if sub.name = "D" then .ok (witNamed "D") else .error "construction failed"

theorem updateWriters_partitions_witness :
    SWriter.name (witNamed "A") = "A" ∧ ("A" : String) ≠ "B" ∧ ("A" : String) ≠ "D"
  ∧ createOnlyD ⟨"D", "ALL", []⟩ = .ok (witNamed "D")
  ∧ reconcileEntry createOnlyD (some [witNamed "A", witNamed "B", witNamed "C"])
      [⟨"A", "ALL", []⟩, ⟨"D", "ALL", []⟩] =
      ⟨[witNamed "A", witNamed "D"], [witNamed "B", witNamed "C"], [witNamed "D"], true⟩ := by
  refine ⟨rfl, by decide, by decide, rfl, ?_⟩
  exact updateWriters_partitions createOnlyD (witNamed "A") (witNamed "B") (witNamed "C")
    (witNamed "D") "A" "B" "C" "D" ⟨"A", "ALL", []⟩ ⟨"D", "ALL", []⟩ rfl rfl rfl rfl
    (by decide) (by decide) (by decide) (by decide) (by decide) (by decide) rfl rfl rfl

/-- After `updateRP`, the registry holds the reconciled writer list at its
own key — written back when mutated, already equal when not. -/
theorem updateRP_registry_self
    (create : String → String → SubscriptionInfo → Except String SWriter)
    (dbName : String) (rp : RetentionPolicyInfo) (st : UpdateState) :
    (updateRP create dbName rp st).registry dbName rp.name =
      some (reconcileEntry (create dbName rp.name) (st.registry dbName rp.name)
        rp.subscriptions).writers := by
  unfold updateRP
  by_cases hm : (reconcileEntry (create dbName rp.name) (st.registry dbName rp.name)
      rp.subscriptions).mutated = true
  · simp [hm, setEntry]
  · simp only [Bool.not_eq_true] at hm
    simp [hm]
    exact reconcileEntry_not_mutated _ _ _ hm

/-- `updateRP` leaves every other key of the registry unchanged. -/
theorem updateRP_registry_other
    (create : String → String → SubscriptionInfo → Except String SWriter)
    (dbName : String) (rp : RetentionPolicyInfo) (st : UpdateState) (d r : String)
    (h : ¬(d = dbName ∧ r = rp.name)) :
    (updateRP create dbName rp st).registry d r = st.registry d r := by
  unfold updateRP
  by_cases hm : (reconcileEntry (create dbName rp.name) (st.registry dbName rp.name)
      rp.subscriptions).mutated = true
  · simp only [hm, if_true, setEntry]
    by_cases hd : d = dbName
    · have hr : ¬ r = rp.name := fun hr => h ⟨hd, hr⟩
      simp [hd, hr]
    · simp [hd]
  · simp only [Bool.not_eq_true] at hm
    simp [hm]

/-- `updateRPs` leaves keys outside its database/retention-policy list
unchanged. -/
theorem updateRPs_registry_other
    (create : String → String → SubscriptionInfo → Except String SWriter)
    (dbName : String) :
    ∀ (rps : List RetentionPolicyInfo) (st : UpdateState) (d r : String),
    (∀ rp ∈ rps, ¬(d = dbName ∧ r = rp.name)) →
    (updateRPs create dbName rps st).registry d r = st.registry d r := by
  intro rps
  induction rps with
  | nil =>
    intro st d r _
    rfl
  | cons rp rest ih =>
    intro st d r h
    rw [show updateRPs create dbName (rp :: rest) st =
      updateRPs create dbName rest (updateRP create dbName rp st) from rfl]
    rw [ih _ d r (fun rp' hrp' => h rp' (List.mem_cons_of_mem _ hrp'))]
    exact updateRP_registry_other create dbName rp st d r (h rp (List.mem_cons_self _ _))

/-- `updateDBs` leaves keys of databases outside its list unchanged. -/
theorem updateDBs_registry_other
    (create : String → String → SubscriptionInfo → Except String SWriter) :
    ∀ (dbs : List DatabaseInfo) (st : UpdateState) (d r : String),
    (∀ db ∈ dbs, d ≠ db.name) →
    (updateDBs create dbs st).registry d r = st.registry d r := by
  intro dbs
  induction dbs with
  | nil =>
    intro st d r _
    rfl
  | cons db rest ih =>
    intro st d r h
    rw [show updateDBs create (db :: rest) st =
      updateDBs create rest (updateRPs create db.name db.retentionPolicies st) from rfl]
    rw [ih _ d r (fun db' hdb' => h db' (List.mem_cons_of_mem _ hdb'))]
    exact updateRPs_registry_other create db.name db.retentionPolicies st d r
      (fun rp _ hdr => h db (List.mem_cons_self _ _) hdr.1)

/-- A (db, rp) registry entry is stable when it exists and reconciling it
against the current subscriptions changes nothing. -/
def entryStable (create : String → String → SubscriptionInfo → Except String SWriter)
    (reg : Registry) (dbName : String) (rp : RetentionPolicyInfo) : Prop :=
  ∃ ws, reg dbName rp.name = some ws ∧
    reconcileEntry (create dbName rp.name) (some ws) rp.subscriptions = ⟨ws, [], [], false⟩

theorem entryStable_congr
    (create : String → String → SubscriptionInfo → Except String SWriter)
    (reg reg' : Registry) (dbName : String) (rp : RetentionPolicyInfo)
    (h : reg' dbName rp.name = reg dbName rp.name)
    (hs : entryStable create reg dbName rp) : entryStable create reg' dbName rp := by
  obtain ⟨ws, h1, h2⟩ := hs
  exact ⟨ws, h.trans h1, h2⟩

/-- One `updateRP` pass leaves its own key stable. -/
theorem updateRP_stable_self
    (create : String → String → SubscriptionInfo → Except String SWriter)
    (hcn : ∀ d r s w, create d r s = .ok w → SWriter.name w = s.name)
    (dbName : String) (rp : RetentionPolicyInfo) (st : UpdateState)
    (hnd : (rp.subscriptions.map SubscriptionInfo.name).Nodup) :
    entryStable create (updateRP create dbName rp st).registry dbName rp := by
  refine ⟨(reconcileEntry (create dbName rp.name) (st.registry dbName rp.name)
    rp.subscriptions).writers, updateRP_registry_self create dbName rp st, ?_⟩
  exact reconcileEntry_post (create dbName rp.name) (hcn dbName rp.name)
    (st.registry dbName rp.name) rp.subscriptions hnd

/-- After `updateRPs`, every processed key is stable (given distinct
retention-policy names and distinct subscription names). -/
theorem updateRPs_stable
    (create : String → String → SubscriptionInfo → Except String SWriter)
    (hcn : ∀ d r s w, create d r s = .ok w → SWriter.name w = s.name)
    (dbName : String) :
    ∀ (rps : List RetentionPolicyInfo) (st : UpdateState),
    (rps.map RetentionPolicyInfo.name).Nodup →
    (∀ rp ∈ rps, (rp.subscriptions.map SubscriptionInfo.name).Nodup) →
    ∀ rp ∈ rps, entryStable create (updateRPs create dbName rps st).registry dbName rp := by
  intro rps
  induction rps with
  | nil =>
    intro st _ _ rp hrp
    exact absurd hrp (List.not_mem_nil rp)
  | cons rp0 rest ih =>
    intro st hnd hsub rp hrp
    rw [List.map_cons, List.nodup_cons] at hnd
    rw [show updateRPs create dbName (rp0 :: rest) st =
      updateRPs create dbName rest (updateRP create dbName rp0 st) from rfl]
    rcases List.mem_cons.mp hrp with rfl | hmem
    · apply entryStable_congr create (updateRP create dbName rp st).registry
      · apply updateRPs_registry_other
        intro rp' hrp' hdr
        exact hnd.1 (hdr.2 ▸ List.mem_map_of_mem RetentionPolicyInfo.name hrp')
      · exact updateRP_stable_self create hcn dbName rp st
          (hsub rp (List.mem_cons_self _ _))
    · exact ih (updateRP create dbName rp0 st) hnd.2
        (fun rp' hrp' => hsub rp' (List.mem_cons_of_mem _ hrp')) rp hmem

/-- After `updateDBs`, every processed key is stable (given distinct
database names, distinct retention-policy names per database, and
distinct subscription names per retention policy). -/
theorem updateDBs_stable
    (create : String → String → SubscriptionInfo → Except String SWriter)
    (hcn : ∀ d r s w, create d r s = .ok w → SWriter.name w = s.name) :
    ∀ (dbs : List DatabaseInfo) (st : UpdateState),
    (dbs.map DatabaseInfo.name).Nodup →
    (∀ db ∈ dbs, (db.retentionPolicies.map RetentionPolicyInfo.name).Nodup) →
    (∀ db ∈ dbs, ∀ rp ∈ db.retentionPolicies,
      (rp.subscriptions.map SubscriptionInfo.name).Nodup) →
    ∀ db ∈ dbs, ∀ rp ∈ db.retentionPolicies,
      entryStable create (updateDBs create dbs st).registry db.name rp := by
  intro dbs
  induction dbs with
  | nil =>
    intro st _ _ _ db hdb
    exact absurd hdb (List.not_mem_nil db)
  | cons db0 rest ih =>
    intro st hnd hrp hsub db hdb rp hmem
    rw [List.map_cons, List.nodup_cons] at hnd
    rw [show updateDBs create (db0 :: rest) st =
      updateDBs create rest (updateRPs create db0.name db0.retentionPolicies st)
        from rfl]
    rcases List.mem_cons.mp hdb with rfl | hdbm
    · apply entryStable_congr create
        (updateRPs create db.name db.retentionPolicies st).registry
      · apply updateDBs_registry_other
        intro db' hdb' hd
        exact hnd.1 (hd ▸ List.mem_map_of_mem DatabaseInfo.name hdb')
      · exact updateRPs_stable create hcn db.name db.retentionPolicies st
          (hrp db (List.mem_cons_self _ _))
          (hsub db (List.mem_cons_self _ _)) rp hmem
    · exact ih (updateRPs create db0.name db0.retentionPolicies st) hnd.2
        (fun db' hdb' => hrp db' (List.mem_cons_of_mem _ hdb'))
        (fun db' hdb' => hsub db' (List.mem_cons_of_mem _ hdb')) db hdbm rp hmem

/-- `updateRP` on a stable key is the identity: no stop, no creation, no
registry write. -/
theorem updateRP_stable_noop
    (create : String → String → SubscriptionInfo → Except String SWriter)
    (dbName : String) (rp : RetentionPolicyInfo) (st : UpdateState)
    (h : entryStable create st.registry dbName rp) :
    updateRP create dbName rp st = st := by
  obtain ⟨ws, h1, h2⟩ := h
  unfold updateRP
  rw [h1, h2]
  simp

theorem updateRPs_stable_noop
    (create : String → String → SubscriptionInfo → Except String SWriter)
    (dbName : String) :
    ∀ (rps : List RetentionPolicyInfo) (st : UpdateState),
    (∀ rp ∈ rps, entryStable create st.registry dbName rp) →
    updateRPs create dbName rps st = st := by
  intro rps
  induction rps with
  | nil =>
    intro st _
    rfl
  | cons rp rest ih =>
    intro st h
    rw [show updateRPs create dbName (rp :: rest) st =
      updateRPs create dbName rest (updateRP create dbName rp st) from rfl]
    rw [updateRP_stable_noop create dbName rp st (h rp (List.mem_cons_self _ _))]
    exact ih st (fun rp' hrp' => h rp' (List.mem_cons_of_mem _ hrp'))

theorem updateDBs_stable_noop
    (create : String → String → SubscriptionInfo → Except String SWriter) :
    ∀ (dbs : List DatabaseInfo) (st : UpdateState),
    (∀ db ∈ dbs, ∀ rp ∈ db.retentionPolicies, entryStable create st.registry db.name rp) →
    updateDBs create dbs st = st := by
  intro dbs
  induction dbs with
  | nil =>
    intro st _
    rfl
  | cons db rest ih =>
    intro st h
    rw [show updateDBs create (db :: rest) st =
      updateDBs create rest (updateRPs create db.name db.retentionPolicies st) from rfl]
    rw [updateRPs_stable_noop create db.name db.retentionPolicies st
      (h db (List.mem_cons_self _ _))]
    exact ih st (fun db' hdb' => h db' (List.mem_cons_of_mem _ hdb'))

/-- C4: reconciliation is idempotent — a second `UpdateWriters` run with
the same database/subscription specification (distinct names, as Go map
keys are) stops no writer, creates and starts no writer, and leaves every
(db, rp) registry entry unchanged. -/
theorem updateWriters_idempotent
    (create : String → String → SubscriptionInfo → Except String SWriter)
    (dbs : List DatabaseInfo) (reg : Registry)
    (hcn : ∀ d r s w, create d r s = .ok w → SWriter.name w = s.name)
    (hdb : (dbs.map DatabaseInfo.name).Nodup)
    (hrp : ∀ db ∈ dbs, (db.retentionPolicies.map RetentionPolicyInfo.name).Nodup)
    (hsub : ∀ db ∈ dbs, ∀ rp ∈ db.retentionPolicies,
      (rp.subscriptions.map SubscriptionInfo.name).Nodup) :
    UpdateWriters create dbs (UpdateWriters create dbs reg).registry =
      ⟨(UpdateWriters create dbs reg).registry, [], []⟩ := by
  unfold UpdateWriters
  apply updateDBs_stable_noop
  intro db hdbm rp hrpm
  exact updateDBs_stable create hcn dbs ⟨reg, [], []⟩ hdb hrp hsub db hdbm rp hrpm

/-- The writer factory the idempotence witness uses: always buildable,
the writer named after its subscription. -/
def createNamed : String → String → SubscriptionInfo → Except String SWriter :=
  fun d r s => .ok (.all ⟨.opened 1 [], [], d, r, s.name⟩)

/-- The metadata the idempotence witness reconciles against. -/
def metaWit : List DatabaseInfo :=
  [⟨"db0", "rp0", [⟨"rp0", [⟨"s1", "ALL", []⟩, ⟨"s2", "ANY", []⟩]⟩]⟩]

theorem updateWriters_idempotent_witness :
    (∀ d r s w, createNamed d r s = .ok w → SWriter.name w = s.name)
  ∧ (metaWit.map DatabaseInfo.name).Nodup
  ∧ (∀ db ∈ metaWit, (db.retentionPolicies.map RetentionPolicyInfo.name).Nodup)
  ∧ (∀ db ∈ metaWit, ∀ rp ∈ db.retentionPolicies,
      (rp.subscriptions.map SubscriptionInfo.name).Nodup)
  ∧ UpdateWriters createNamed metaWit
      (UpdateWriters createNamed metaWit (fun _ _ => none)).registry =
      ⟨(UpdateWriters createNamed metaWit (fun _ _ => none)).registry, [], []⟩ := by
  have hcn : ∀ d r s w, createNamed d r s = .ok w → SWriter.name w = s.name := by
    intro d r s w h
    cases h
    rfl
  refine ⟨hcn, by decide, by decide, by decide, ?_⟩
  exact updateWriters_idempotent createNamed metaWit (fun _ _ => none) hcn (by decide)
    (by decide) (by decide)

/-- The database oracle the C8 witness resolves against. -/
def dbOracle0 : String → Except String DatabaseInfo := fun d =>
  if d = "db0" then .ok ⟨"db0", "rpdef", []⟩ else .error "unknown database"

/-- The registry the C8 witness forwards through. -/
def reg0 : Registry := fun d r =>
  if d = "db0" then (if r = "rpdef" then some [witNamed "A"] else none) else none

theorem send_resolves_default_rp_witness :
    dbOracle0 "db0" = .ok ⟨"db0", "rpdef", []⟩
  ∧ SubscriberManager.Send dbOracle0 reg0 "db0" "" (some [1]) =
      ⟨"rpdef", [witNamed "A"], false⟩
  ∧ dbOracle0 "dbX" = .error "unknown database"
  ∧ reg0 "dbX" "" = none
  ∧ SubscriberManager.Send dbOracle0 reg0 "dbX" "" (some [1]) = ⟨"", [], true⟩
  ∧ SubscriberManager.SendColumn dbOracle0 reg0 "dbX" "" "m0" none = ⟨"", [], true⟩ := by
  have h1 := (send_resolves_default_rp dbOracle0 reg0 "db0" (some [1]) "m0" none).1
    ⟨"db0", "rpdef", []⟩ rfl
  have h2 := (send_resolves_default_rp dbOracle0 reg0 "dbX" (some [1]) "m0" none).2
    "unknown database" rfl rfl
  refine ⟨rfl, ?_, rfl, rfl, h2.1, h2.2⟩
  rw [h1.1]
  rfl

end coordinator
